import Mathlib

/-!
Shallow embedding of `pkg/stream.go` from the gravestench/wav repository.

The file models the three stream primitives of that file:

* `streamReader`  — a byte-cursor reader over an immutable buffer,
* `streamWriter`  — an append-only byte writer with an LSB-first bit packer,
* `BitStream`     — a bit-accumulator reader with a 16-bit read ceiling.

Modelling conventions:

* Go `byte` is modelled as `Fin 256` (`GoByte`); the Go conversion
  `byte(x)` is `byteOf x`, i.e. reduction modulo 256.
* Go `uint64` cursor arithmetic stays inside `Nat` (`streamReader.position`);
  the one place Go can wrap (`SkipBytes` adding a converted negative count)
  wraps explicitly modulo `2^64`.
* Go `int` is modelled as `Int`.  The two shifts performed on the Go `int`
  accumulator of `BitStream` convert their count to `uint`; Go evaluates a
  shift whose (converted) count is `≥ 64` to `0` (left shift, and right
  shift of a non-negative value) or `-1` (right shift of a negative value),
  and a negative count converts to a `uint` that is `≥ 2^63 ≥ 64`.
  `goShlInt` / `goShrInt` reproduce exactly that, with 64-bit two's
  complement wrap-around (`wrap64`) on the left shift.
* A Go function returning `(value, error)` is modelled as returning
  `Option value` together with the post-state of its receiver; `none`
  stands for a non-nil error (`io.EOF` here).  `BitStream.ReadBits`
  returns `none` for the `log.Panic` on a bit count above 16, and
  `some (-1, _)` for the in-band end-of-data sentinel of the source.
* Fields that Go never lets become negative through the public API
  (`streamWriter.bitOffset`, `BitStream.dataPosition`, positions and
  loop counters) are modelled as `Nat`.
-/

/-- A Go `byte`: a natural number below 256. -/
abbrev GoByte := Fin 256

/-- The zero byte. -/
def byte0 : GoByte := ⟨0, by decide⟩

/-- The Go conversion `byte(n)`: reduction modulo 256. -/
def byteOf (n : Nat) : GoByte := ⟨n % 256, Nat.mod_lt _ (by decide)⟩

/-- Two's-complement wrap-around of an unbounded integer into the range
of a 64-bit Go `int`. -/
def wrap64 (x : Int) : Int := (x + 2 ^ 63) % 2 ^ 64 - 2 ^ 63

/-- The Go expression `x << uint(n)` on a 64-bit `int` operand: a shift
count that is negative converts to a `uint` that is at least `2^63`, and
any count `≥ 64` yields `0`; otherwise the result wraps mod `2^64`. -/
def goShlInt (x : Int) (n : Int) : Int :=
  if 0 ≤ n ∧ n < 64 then wrap64 (x * 2 ^ n.toNat) else 0

/-- The Go expression `x >> uint(n)` on a 64-bit `int` operand: an
arithmetic shift, i.e. floor division by `2^count`; a count that is
negative or `≥ 64` yields `0` for non-negative `x` and `-1` otherwise. -/
def goShrInt (x : Int) (n : Int) : Int :=
  if 0 ≤ n ∧ n < 64 then Int.fdiv x (2 ^ n.toNat)
  else if 0 ≤ x then 0 else -1

/-- The Go conversion `int16(n)` of a `uint16` value. -/
def toInt16 (n : Nat) : Int :=
  if n % 2 ^ 16 < 2 ^ 15 then (n % 2 ^ 16 : Int) else (n % 2 ^ 16 : Int) - 2 ^ 16

/-- The Go conversion `int32(n)` of a `uint32` value. -/
def toInt32 (n : Nat) : Int :=
  if n % 2 ^ 32 < 2 ^ 31 then (n % 2 ^ 32 : Int) else (n % 2 ^ 32 : Int) - 2 ^ 32

/-- The Go conversion `int64(n)` of a `uint64` value. -/
def toInt64 (n : Nat) : Int :=
  if n % 2 ^ 64 < 2 ^ 63 then (n % 2 ^ 64 : Int) else (n % 2 ^ 64 : Int) - 2 ^ 64

/-- `streamReader` of `stream.go`: a borrowed byte buffer and a `uint64`
cursor. -/
structure streamReader where
  data : List GoByte
  position : Nat
deriving DecidableEq

/-- `CreateStreamReader` of `stream.go`. -/
def CreateStreamReader (source : List GoByte) : streamReader :=
  { data := source, position := 0 }

/-- `streamReader.Size`: the total size of the stream in bytes. -/
def streamReader.Size (v : streamReader) : Nat := v.data.length

/-- `streamReader.Position`: the current stream position. -/
def streamReader.Position (v : streamReader) : Nat := v.position

/-- `streamReader.SetPosition`: unchecked, accepts any value. -/
def streamReader.SetPosition (v : streamReader) (newPosition : Nat) : streamReader :=
  { v with position := newPosition }

/-- `streamReader.SkipBytes`: `v.position += uint64(count)`, wrapping as
Go `uint64` addition does. -/
def streamReader.SkipBytes (v : streamReader) (count : Int) : streamReader :=
  { v with position := (v.position + (count.emod (2 ^ 64)).toNat) % 2 ^ 64 }

/-- `streamReader.EOF`: `v.position >= uint64(len(v.data))`. -/
def streamReader.EOF (v : streamReader) : Bool :=
  decide (v.position ≥ v.data.length)

/-- `streamReader.ReadBytes`: `none` models the `io.EOF` error return; the
returned reader is the post-state of the Go receiver. -/
def streamReader.ReadBytes (v : streamReader) (count : Int) :
    Option (List GoByte) × streamReader :=
  if count ≤ 0 then (some [], v)
  else if v.position ≥ v.Size ∨ v.position + count.toNat > v.Size then (none, v)
  else (some ((v.data.drop v.position).take count.toNat),
        { v with position := v.position + count.toNat })

/-- `streamReader.ReadByte`. -/
def streamReader.ReadByte (v : streamReader) : Option GoByte × streamReader :=
  if v.position ≥ v.Size then (none, v)
  else (some (v.data.getD v.position byte0), { v with position := v.position + 1 })

/-- `streamReader.ReadUInt16`: two bytes via `ReadBytes`, combined
little-endian with the `|` and `<<` of the source. -/
def streamReader.ReadUInt16 (v : streamReader) : Option Nat × streamReader :=
  match v.ReadBytes 2 with
  | (none, v1) => (none, v1)
  | (some b, v1) =>
      (some ((b.getD 0 byte0).val ||| ((b.getD 1 byte0).val <<< 8)), v1)

/-- `streamReader.ReadInt16`: `int16(uint16 value)`. -/
def streamReader.ReadInt16 (v : streamReader) : Option Int × streamReader :=
  match v.ReadUInt16 with
  | (none, v1) => (none, v1)
  | (some b, v1) => (some (toInt16 b), v1)

/-- `streamReader.ReadUInt32`: four bytes via `ReadBytes`, combined
little-endian. -/
def streamReader.ReadUInt32 (v : streamReader) : Option Nat × streamReader :=
  match v.ReadBytes 4 with
  | (none, v1) => (none, v1)
  | (some b, v1) =>
      (some ((b.getD 0 byte0).val ||| ((b.getD 1 byte0).val <<< 8) |||
             ((b.getD 2 byte0).val <<< 16) ||| ((b.getD 3 byte0).val <<< 24)), v1)

/-- `streamReader.ReadInt32`: `int32(uint32 value)`. -/
def streamReader.ReadInt32 (v : streamReader) : Option Int × streamReader :=
  match v.ReadUInt32 with
  | (none, v1) => (none, v1)
  | (some b, v1) => (some (toInt32 b), v1)

/-- `streamReader.ReadUInt64`: eight bytes via `ReadBytes`, combined
little-endian. -/
def streamReader.ReadUInt64 (v : streamReader) : Option Nat × streamReader :=
  match v.ReadBytes 8 with
  | (none, v1) => (none, v1)
  | (some b, v1) =>
      (some ((b.getD 0 byte0).val ||| ((b.getD 1 byte0).val <<< 8) |||
             ((b.getD 2 byte0).val <<< 16) ||| ((b.getD 3 byte0).val <<< 24) |||
             ((b.getD 4 byte0).val <<< 32) ||| ((b.getD 5 byte0).val <<< 40) |||
             ((b.getD 6 byte0).val <<< 48) ||| ((b.getD 7 byte0).val <<< 56)), v1)

/-- `streamReader.ReadInt64`: `int64(uint64 value)`. -/
def streamReader.ReadInt64 (v : streamReader) : Option Int × streamReader :=
  match v.ReadUInt64 with
  | (none, v1) => (none, v1)
  | (some b, v1) => (some (toInt64 b), v1)

/-- `streamWriter` of `stream.go`: a growable buffer (`bytes.Buffer`),
a bit-offset counter and a partial-byte accumulator.  `bitOffset` is a Go
`int` that the API only ever sets to `0` or increments below `8`, so it
is modelled as `Nat`. -/
structure streamWriter where
  data : List GoByte
  bitOffset : Nat
  bitCache : GoByte
deriving DecidableEq

/-- `CreateStreamWriter` of `stream.go`. -/
def CreateStreamWriter : streamWriter :=
  { data := [], bitOffset := 0, bitCache := byte0 }

/-- `streamWriter.GetBytes`: the bytes of the underlying buffer (and
nothing of the bit-packing scratch state). -/
def streamWriter.GetBytes (v : streamWriter) : List GoByte := v.data

/-- `streamWriter.PushBytes`: appends each byte to the buffer. -/
def streamWriter.PushBytes (v : streamWriter) (b : List GoByte) : streamWriter :=
  { v with data := v.data ++ b }

/-- `streamWriter.PushBit`: ors `1 << bitOffset` into the cache when the
bit is set, increments the offset, and on reaching 8 appends the cache
byte and resets both scratch fields. -/
def streamWriter.PushBit (v : streamWriter) (b : Bool) : streamWriter :=
  let cache : GoByte :=
    if b then byteOf (v.bitCache.val ||| ((1 <<< v.bitOffset) % 256)) else v.bitCache
  let off := v.bitOffset + 1
  if off ≠ 8 then { v with bitCache := cache, bitOffset := off }
  else { data := v.data ++ [cache], bitCache := byte0, bitOffset := 0 }

/-- The shared loop body of `PushBits`, `PushBits16` and `PushBits32`:
pushes the low `n` bits of `val`, least significant first. -/
def streamWriter.pushBitsVal (v : streamWriter) (val : Nat) : Nat → streamWriter
  | 0 => v
  | n + 1 => (v.PushBit (val % 2 == 1)).pushBitsVal (val / 2) n

/-- `streamWriter.PushBits` (max range 8): a bit count above 8 only logs
a diagnostic and the loop proceeds regardless.  A negative count runs the
loop zero times. -/
def streamWriter.PushBits (v : streamWriter) (b : GoByte) (bits : Int) : streamWriter :=
  v.pushBitsVal b.val bits.toNat

/-- `streamWriter.PushBits16` (max range 16); the argument models a Go
`uint16` value. -/
def streamWriter.PushBits16 (v : streamWriter) (b : Nat) (bits : Int) : streamWriter :=
  v.pushBitsVal b bits.toNat

/-- `streamWriter.PushBits32` (max range 32); the argument models a Go
`uint32` value. -/
def streamWriter.PushBits32 (v : streamWriter) (b : Nat) (bits : Int) : streamWriter :=
  v.pushBitsVal b bits.toNat

/-- `streamWriter.PushUint16`: two little-endian bytes straight into the
buffer. -/
def streamWriter.PushUint16 (v : streamWriter) (val : Nat) : streamWriter :=
  { v with data := v.data ++ [byteOf val, byteOf (val >>> 8)] }

/-- `streamWriter.PushInt16`: `PushUint16(uint16(val))`. -/
def streamWriter.PushInt16 (v : streamWriter) (val : Int) : streamWriter :=
  v.PushUint16 (val.emod (2 ^ 16)).toNat

/-- `streamWriter.PushUint32`: four little-endian bytes straight into the
buffer. -/
def streamWriter.PushUint32 (v : streamWriter) (val : Nat) : streamWriter :=
  { v with data := v.data ++
      [byteOf val, byteOf (val >>> 8), byteOf (val >>> 16), byteOf (val >>> 24)] }

/-- `streamWriter.PushInt32`: `PushUint32(uint32(val))`. -/
def streamWriter.PushInt32 (v : streamWriter) (val : Int) : streamWriter :=
  v.PushUint32 (val.emod (2 ^ 32)).toNat

/-- `streamWriter.PushUint64`: eight little-endian bytes straight into
the buffer. -/
def streamWriter.PushUint64 (v : streamWriter) (val : Nat) : streamWriter :=
  { v with data := v.data ++
      [byteOf val, byteOf (val >>> 8), byteOf (val >>> 16), byteOf (val >>> 24),
       byteOf (val >>> 32), byteOf (val >>> 40), byteOf (val >>> 48),
       byteOf (val >>> 56)] }

/-- `streamWriter.PushInt64`: `PushUint64(uint64(val))`. -/
def streamWriter.PushInt64 (v : streamWriter) (val : Int) : streamWriter :=
  v.PushUint64 (val.emod (2 ^ 64)).toNat

/-- `BitStream` of `stream.go`: a byte buffer, a byte cursor, the Go
`int` accumulator `current` and the Go `int` count `bitCount` of valid
bits resident in it (`bitCount` does go negative under the source's
`WasteBits`, hence `Int`). -/
structure BitStream where
  data : List GoByte
  dataPosition : Nat
  current : Int
  bitCount : Int
deriving DecidableEq

/-- `CreateBitStream` of `stream.go`. -/
def CreateBitStream (newData : List GoByte) : BitStream :=
  { data := newData, dataPosition := 0, current := 0, bitCount := 0 }

/-- `BitStream.EnsureBits`: returns `true` immediately when `bitCount`
bits are already resident; otherwise pulls a single byte (if one is
left), ors it into the accumulator above the resident bits, adds 8 to
the resident count and returns `true`; returns `false` only when the
buffer is exhausted. -/
def BitStream.EnsureBits (v : BitStream) (bitCount : Int) : Bool × BitStream :=
  if bitCount ≤ v.bitCount then (true, v)
  else if v.dataPosition ≥ v.data.length then (false, v)
  else
    let nextValue := v.data.getD v.dataPosition byte0
    (true,
     { v with
        dataPosition := v.dataPosition + 1,
        current := Int.lor v.current (goShlInt nextValue.val v.bitCount),
        bitCount := v.bitCount + 8 })

/-- `BitStream.WasteBits`: shifts the accumulator right and decrements
the resident-bit count, unchecked. -/
def BitStream.WasteBits (v : BitStream) (bitCount : Int) : BitStream :=
  { v with current := goShrInt v.current bitCount, bitCount := v.bitCount - bitCount }

/-- `BitStream.ReadBits`: `none` models the `log.Panic` for a bit count
above 16; `some (-1, _)` is the source's end-of-data sentinel; otherwise
the masked low bits are returned and wasted. -/
def BitStream.ReadBits (v : BitStream) (bitCount : Int) : Option (Int × BitStream) :=
  if bitCount > 16 then none
  else
    match v.EnsureBits bitCount with
    | (false, v1) => some (-1, v1)
    | (true, v1) =>
        some (Int.land v1.current (goShrInt 65535 (16 - bitCount)), v1.WasteBits bitCount)

/-- `BitStream.PeekByte`: `-1` is the source's end-of-data sentinel;
otherwise the low 8 bits of the accumulator, not wasted.  The returned
stream is the post-state of the receiver (`EnsureBits` may pull a
byte). -/
def BitStream.PeekByte (v : BitStream) : Int × BitStream :=
  match v.EnsureBits 8 with
  | (false, v1) => (-1, v1)
  | (true, v1) => (Int.land v1.current 255, v1)

/-- Cumulative bit consumption of a `BitStream` state: bits pulled from
the buffer minus bits still resident in the accumulator. -/
def BitStream.consumedBits (s : BitStream) : Int :=
  8 * s.dataPosition - s.bitCount

/-- Pushing a list of bits one by one with `PushBit`. -/
def streamWriter.pushBitList (v : streamWriter) (bs : List Bool) : streamWriter :=
  bs.foldl streamWriter.PushBit v

/-- The round trip of claim C2: push `v` with `PushBits(v, bitCount)`
into a fresh writer, then read `bitCount` bits from a `BitStream` over
`GetBytes()`. -/
def bitPushReadRoundTrip (v : Nat) (bitCount : Int) : Option (Int × BitStream) :=
  (CreateBitStream ((CreateStreamWriter.PushBits (byteOf v) bitCount).GetBytes)).ReadBits
    bitCount

/-! ### Helper lemmas -/

/-- Every bit of `Nat.ldiff m n` is a bit of `m`, so the value is at most
`m`. -/
theorem ldiff_le_self (m n : Nat) : Nat.ldiff m n ≤ m := by
  refine Nat.le_of_testBit fun i h => ?_
  rw [Nat.testBit_ldiff] at h
  simp at h
  exact h.1

/-- Unfolding `Int.land` on two non-negative arguments. -/
theorem int_land_ofNat (a m : Nat) :
    Int.land (Int.ofNat a) (Int.ofNat m) = Int.ofNat (a &&& m) := rfl

/-- Unfolding `Int.land` on a negative left argument. -/
theorem int_land_negSucc (a m : Nat) :
    Int.land (Int.negSucc a) (Int.ofNat m) = Int.ofNat (Nat.ldiff m a) := rfl

/-- Masking any integer with a natural mask yields a value in
`[0, mask]`: this is what makes the success values of `ReadBits` and
`PeekByte` non-negative. -/
theorem int_land_nat_bounds (c : Int) (m : Nat) :
    0 ≤ Int.land c (Int.ofNat m) ∧ Int.land c (Int.ofNat m) ≤ Int.ofNat m := by
  cases c with
  | ofNat a =>
      rw [int_land_ofNat]
      exact ⟨Int.ofNat_nonneg _, Int.ofNat_le.mpr Nat.and_le_right⟩
  | negSucc a =>
      rw [int_land_negSucc]
      exact ⟨Int.ofNat_nonneg _, Int.ofNat_le.mpr (ldiff_le_self m a)⟩

/-- Or-ing a value shifted left by `k` bits over a value below `2^k` is
plain addition: the little-endian combinators of the reader are sums. -/
theorem lor_shiftLeft_eq_add {a : Nat} (b k : Nat) (h : a < 2 ^ k) :
    a ||| b <<< k = a + b * 2 ^ k := by
  rw [Nat.shiftLeft_eq, Nat.mul_comm b, Nat.or_comm, ← Nat.mul_add_lt_is_or h]
  ring

/-- When `EnsureBits` answers `false` it has not touched the stream. -/
theorem ensureBits_false_state (s : BitStream) (n : Int) :
    (s.EnsureBits n).1 = false → (s.EnsureBits n).2 = s := by
  unfold BitStream.EnsureBits
  split
  · intro h; cases h
  · split
    · intro _; rfl
    · intro h; cases h

/-- A successful `EnsureBits 8` from a state with a non-negative resident
count leaves at least 8 resident bits and consumes nothing. -/
theorem ensureBits8_success (s : BitStream) (h0 : 0 ≤ s.bitCount)
    (h : (s.EnsureBits 8).1 = true) :
    8 ≤ (s.EnsureBits 8).2.bitCount ∧
      (s.EnsureBits 8).2.consumedBits = s.consumedBits := by
  unfold BitStream.EnsureBits at h ⊢
  by_cases h1 : (8 : Int) ≤ s.bitCount
  · rw [if_pos h1] at h ⊢
    exact ⟨h1, rfl⟩
  · rw [if_neg h1] at h ⊢
    by_cases h2 : s.dataPosition ≥ s.data.length
    · rw [if_pos h2] at h; cases h
    · rw [if_neg h2] at h ⊢
      simp only [BitStream.consumedBits]
      constructor
      · omega
      · push_cast
        ring

/-- `ReadBytes` with a count exceeding the remaining bytes fails and
leaves the reader untouched. -/
theorem readBytes_past_end (s : streamReader) (c : Int)
    (h : ((s.Size - s.Position : Nat) : Int) < c) : s.ReadBytes c = (none, s) := by
  simp only [streamReader.Size, streamReader.Position] at h
  unfold streamReader.ReadBytes
  split
  · exfalso; omega
  · split
    · rfl
    · exfalso
      simp only [streamReader.Size, streamReader.Position] at *
      omega

/-! ### Claim theorems -/

/-- Claim C1 (code bug, concrete evaluation): on a fresh `BitStream` over
the two bytes `0x34 0x12`, `EnsureBits(16)` reports success after pulling
a single byte, leaving only 8 valid bits in the accumulator — not the 16
the specification (and the function's own doc comment) promise — and the
subsequent `ReadBits(16)` therefore returns `0x34` (52) instead of the
16-bit little-endian value `0x1234`, driving the resident-bit count to
`-8`. -/
theorem claim_C1_ensureBits_bug :
    ((CreateBitStream [byteOf 52, byteOf 18]).EnsureBits 16).1 = true ∧
    ((CreateBitStream [byteOf 52, byteOf 18]).EnsureBits 16).2.bitCount = 8 ∧
    ((8 : Int) < 16) ∧
    (CreateBitStream [byteOf 52, byteOf 18]).ReadBits 16 =
      some (52, { data := [byteOf 52, byteOf 18], dataPosition := 1,
                  current := 0, bitCount := -8 }) := by decide

/-- Claim C2 (counterexample): pushing the single bit `1` with
`PushBits(1, 1)` leaves the bit in the writer's partial-byte cache, so
`GetBytes()` is empty and reading 1 bit back yields the end-of-data
sentinel `-1`, not the pushed value `1`. -/
theorem claim_C2_counterexample :
    Option.map Prod.fst (bitPushReadRoundTrip 1 1) = some (-1) ∧
      ((-1 : Int) ≠ 1) := by decide

set_option maxRecDepth 100000 in
/-- Claim C2 (amended): the push/read round trip of the claim holds for
`bitCount = 8` — the only bit count in `[1,8]` at which the pushed bits
complete a byte and reach `GetBytes()` — for every value `v < 2^8`. -/
theorem claim_C2_amended (v : Nat) (h : v < 256) :
    Option.map Prod.fst (bitPushReadRoundTrip v 8) = some (v : Int) := by
  revert v h
  decide

/-- Witness for the amended claim C2 at `v = 200`. -/
theorem claim_C2_amended_witness :
    Option.map Prod.fst (bitPushReadRoundTrip 200 8) = some (200 : Int) :=
  claim_C2_amended 200 (by decide)

/-- Claim C3 (counterexample): after `SetPosition(5)` on a one-byte
buffer, `EOF()` is `true` although `Position() = 5 ≠ 1 = Size()` — the
source tests `position >= size`, not equality. -/
theorem claim_C3_counterexample :
    ((CreateStreamReader [byteOf 7]).SetPosition 5).EOF = true ∧
      ((CreateStreamReader [byteOf 7]).SetPosition 5).Position ≠
        ((CreateStreamReader [byteOf 7]).SetPosition 5).Size := by decide

/-- Claim C3 (amended): `EOF()` is `true` exactly when the cursor is at
or beyond the end of the buffer, `Position() ≥ Size()`. -/
theorem claim_C3_amended (s : streamReader) :
    s.EOF = true ↔ s.Size ≤ s.Position := by
  simp [streamReader.EOF, streamReader.Size, streamReader.Position]

/-- Claim C6: `ReadBits` with a bit count above 16 aborts
(`log.Panic`, modelled as `none`) for every stream state, hence
deterministically and independently of the buffer contents, and that
abort is a different result from the in-band end-of-data sentinel
`some (-1, s)`. -/
theorem claim_C6_readBits_panic (s : BitStream) (bitCount : Int)
    (h : bitCount > 16) :
    s.ReadBits bitCount = none ∧ s.ReadBits bitCount ≠ some (-1, s) := by
  unfold BitStream.ReadBits
  rw [if_pos h]
  exact ⟨rfl, by simp⟩

/-- Witness for claim C6 at a concrete stream and `bitCount = 17`. -/
theorem claim_C6_readBits_panic_witness :
    (CreateBitStream [byteOf 3]).ReadBits 17 = none ∧
      (CreateBitStream [byteOf 3]).ReadBits 17 ≠ some (-1, CreateBitStream [byteOf 3]) :=
  claim_C6_readBits_panic (CreateBitStream [byteOf 3]) 17 (by decide)

/-- Claim C10: `ReadBytes` with a non-positive count returns an empty
result, no error, and an unchanged reader. -/
theorem claim_C10_nonpositive_count (s : streamReader) (count : Int)
    (h : count ≤ 0) : s.ReadBytes count = (some [], s) := by
  unfold streamReader.ReadBytes
  rw [if_pos h]

/-- Witness for claim C10 at a concrete reader and `count = -3`. -/
theorem claim_C10_nonpositive_count_witness :
    (CreateStreamReader [byteOf 9, byteOf 8]).ReadBytes (-3) =
      (some [], CreateStreamReader [byteOf 9, byteOf 8]) :=
  claim_C10_nonpositive_count (CreateStreamReader [byteOf 9, byteOf 8]) (-3) (by decide)

/-- Claim C4: `ReadBytes` with a positive count exceeding the remaining
bytes fails with the end-of-data error and an unchanged cursor, and every
fixed-width read whose full width is not available — in particular at or
past end-of-buffer — fails the same way without consuming any partial
bytes. -/
theorem claim_C4_reads_fail_atomically (s : streamReader) (count : Int) :
    (((s.Size - s.Position : Nat) : Int) < count → s.ReadBytes count = (none, s)) ∧
    (s.Size - s.Position < 1 → s.ReadByte = (none, s)) ∧
    (s.Size - s.Position < 2 → s.ReadUInt16 = (none, s) ∧ s.ReadInt16 = (none, s)) ∧
    (s.Size - s.Position < 4 → s.ReadUInt32 = (none, s) ∧ s.ReadInt32 = (none, s)) ∧
    (s.Size - s.Position < 8 → s.ReadUInt64 = (none, s) ∧ s.ReadInt64 = (none, s)) := by
  refine ⟨fun h => readBytes_past_end s count h, fun h => ?_, fun h => ?_,
    fun h => ?_, fun h => ?_⟩
  · have hc : s.position ≥ s.Size := by
      simp only [streamReader.Size, streamReader.Position] at h ⊢
      omega
    unfold streamReader.ReadByte
    rw [if_pos hc]
  · have h2 : s.ReadBytes 2 = (none, s) := readBytes_past_end s 2 (by omega)
    refine ⟨?_, ?_⟩
    · unfold streamReader.ReadUInt16
      rw [h2]
    · unfold streamReader.ReadInt16 streamReader.ReadUInt16
      rw [h2]
  · have h4 : s.ReadBytes 4 = (none, s) := readBytes_past_end s 4 (by omega)
    refine ⟨?_, ?_⟩
    · unfold streamReader.ReadUInt32
      rw [h4]
    · unfold streamReader.ReadInt32 streamReader.ReadUInt32
      rw [h4]
  · have h8 : s.ReadBytes 8 = (none, s) := readBytes_past_end s 8 (by omega)
    refine ⟨?_, ?_⟩
    · unfold streamReader.ReadUInt64
      rw [h8]
    · unfold streamReader.ReadInt64 streamReader.ReadUInt64
      rw [h8]

/-- Witness for claim C4 at a reader whose cursor sits at the end of a
one-byte buffer, with `count = 5`. -/
theorem claim_C4_witness :
    ((CreateStreamReader [byteOf 1]).SetPosition 1).ReadBytes 5 =
        (none, (CreateStreamReader [byteOf 1]).SetPosition 1) ∧
      ((CreateStreamReader [byteOf 1]).SetPosition 1).ReadByte =
        (none, (CreateStreamReader [byteOf 1]).SetPosition 1) ∧
      ((CreateStreamReader [byteOf 1]).SetPosition 1).ReadUInt16 =
        (none, (CreateStreamReader [byteOf 1]).SetPosition 1) ∧
      ((CreateStreamReader [byteOf 1]).SetPosition 1).ReadUInt32 =
        (none, (CreateStreamReader [byteOf 1]).SetPosition 1) ∧
      ((CreateStreamReader [byteOf 1]).SetPosition 1).ReadUInt64 =
        (none, (CreateStreamReader [byteOf 1]).SetPosition 1) := by
  have h := claim_C4_reads_fail_atomically ((CreateStreamReader [byteOf 1]).SetPosition 1) 5
  exact ⟨h.1 (by decide), h.2.1 (by decide), (h.2.2.1 (by decide)).1,
    (h.2.2.2.1 (by decide)).1, (h.2.2.2.2 (by decide)).1⟩

/-- Claim C7 (counterexample): in the reachable state produced by
`ReadBits(16)` on a fresh stream over `0x34 0x12 0xFF` — whose resident
count is `-8` because of the `EnsureBits` under-fill — `PeekByte()`
succeeds with value `0`, yet the immediately following `ReadBits(8)`
succeeds with value `255 ≠ 0`. -/
theorem claim_C7_counterexample :
    ((CreateBitStream [byteOf 52, byteOf 18, byteOf 255]).ReadBits 16 =
       some (52, { data := [byteOf 52, byteOf 18, byteOf 255], dataPosition := 1,
                   current := 0, bitCount := -8 })) ∧
    (BitStream.PeekByte { data := [byteOf 52, byteOf 18, byteOf 255], dataPosition := 1,
                          current := 0, bitCount := -8 } =
       (0, { data := [byteOf 52, byteOf 18, byteOf 255], dataPosition := 2,
             current := 0, bitCount := 0 })) ∧
    ((0 : Int) ≠ -1) ∧
    (BitStream.ReadBits { data := [byteOf 52, byteOf 18, byteOf 255], dataPosition := 2,
                          current := 0, bitCount := 0 } 8 =
       some (255, { data := [byteOf 52, byteOf 18, byteOf 255], dataPosition := 3,
                    current := 0, bitCount := 0 })) ∧
    ((255 : Int) ≠ 0) := by decide

/-- Claim C7 (amended): from any state whose resident-bit count is
non-negative — every state reachable without tripping the `EnsureBits`
under-fill of claim C1 — a successful `PeekByte()` consumes nothing, and
an immediately following `ReadBits(8)` succeeds with the peeked value
while total consumption grows by exactly 8 bits. -/
theorem claim_C7_amended (s : BitStream) (r : Int) (s1 : BitStream)
    (h0 : 0 ≤ s.bitCount) (hpeek : s.PeekByte = (r, s1)) (hr : r ≠ -1) :
    s1.consumedBits = s.consumedBits ∧
      ∃ s2, s1.ReadBits 8 = some (r, s2) ∧ s2.consumedBits = s.consumedBits + 8 := by
  unfold BitStream.PeekByte at hpeek
  rcases he : s.EnsureBits 8 with ⟨b, t⟩
  rw [he] at hpeek
  cases b
  · simp at hpeek
    exact absurd hpeek.1.symm hr
  · have hfst : (s.EnsureBits 8).1 = true := by rw [he]
    obtain ⟨hge, hcons⟩ := ensureBits8_success s h0 hfst
    rw [he] at hge hcons
    simp at hpeek
    obtain ⟨hr1, hs1⟩ := hpeek
    subst hs1
    refine ⟨hcons, t.WasteBits 8, ?_, ?_⟩
    · unfold BitStream.ReadBits
      rw [if_neg (by norm_num)]
      have hens : t.EnsureBits 8 = (true, t) := by
        unfold BitStream.EnsureBits
        rw [if_pos hge]
      rw [hens]
      show some (Int.land t.current (goShrInt 65535 (16 - 8)), t.WasteBits 8) =
        some (r, t.WasteBits 8)
      have hmask : goShrInt 65535 (16 - (8 : Int)) = 255 := by decide
      rw [hmask, hr1]
    · simp only [BitStream.WasteBits, BitStream.consumedBits] at *
      omega

/-- Witness for the amended claim C7: a fresh stream over the single
byte `0xAB`. -/
theorem claim_C7_amended_witness :
    BitStream.consumedBits
        { data := [byteOf 171], dataPosition := 1, current := 171, bitCount := 8 } =
      (CreateBitStream [byteOf 171]).consumedBits ∧
    ∃ s2, BitStream.ReadBits
        { data := [byteOf 171], dataPosition := 1, current := 171, bitCount := 8 } 8 =
        some (171, s2) ∧
      s2.consumedBits = (CreateBitStream [byteOf 171]).consumedBits + 8 :=
  claim_C7_amended (CreateBitStream [byteOf 171]) 171
    { data := [byteOf 171], dataPosition := 1, current := 171, bitCount := 8 }
    (by decide) (by decide) (by decide)

/-- Claim C9: with a bit count in `(0, 16]`, the success value of
`ReadBits` lies in `[0, 2^bitCount)` and the success value of `PeekByte`
lies in `[0, 256)`; the `-1` end-of-data sentinel arises exactly on the
`EnsureBits` failure path, so it is distinguishable from every
legitimate result and never conflated with a valid zero-value read. -/
theorem claim_C9_success_ranges :
    (∀ (s : BitStream) (bc r : Int) (s1 : BitStream), 0 < bc → bc ≤ 16 →
        s.ReadBits bc = some (r, s1) →
        ((s.EnsureBits bc).1 = false → r = -1 ∧ s1 = s) ∧
        ((s.EnsureBits bc).1 = true →
          0 ≤ r ∧ r < ((2 ^ bc.toNat : Nat) : Int))) ∧
    (∀ (s : BitStream) (q : Int) (s1 : BitStream), s.PeekByte = (q, s1) →
        q = -1 ∨ (0 ≤ q ∧ q < 256)) := by
  constructor
  · intro s bc r s1 h0 h16 hread
    unfold BitStream.ReadBits at hread
    rw [if_neg (by omega)] at hread
    rcases he : s.EnsureBits bc with ⟨b, t⟩
    rw [he] at hread
    cases b
    · simp at hread
      have ht : t = s := by
        have hfa := ensureBits_false_state s bc (by rw [he])
        rw [he] at hfa
        exact hfa
      constructor
      · intro _
        exact ⟨hread.1.symm, by rw [← hread.2, ht]⟩
      · intro htrue
        simp at htrue
    · simp at hread
      obtain ⟨hr, hs1⟩ := hread
      constructor
      · intro hfalse
        simp at hfalse
      · intro _
        have hmask : goShrInt 65535 (16 - bc) = Int.ofNat (2 ^ bc.toNat - 1) := by
          interval_cases bc <;> decide
        rw [hmask] at hr
        obtain ⟨hge, hle⟩ := int_land_nat_bounds t.current (2 ^ bc.toNat - 1)
        constructor
        · rw [← hr]; exact hge
        · rw [← hr]
          calc Int.land t.current (Int.ofNat (2 ^ bc.toNat - 1)) ≤
              Int.ofNat (2 ^ bc.toNat - 1) := hle
          _ < ((2 ^ bc.toNat : Nat) : Int) := by
              show Int.ofNat (2 ^ bc.toNat - 1) < Int.ofNat (2 ^ bc.toNat)
              exact Int.ofNat_lt.mpr (Nat.sub_lt Nat.one_le_two_pow Nat.one_pos)
  · intro s q s1 hpeek
    unfold BitStream.PeekByte at hpeek
    rcases he : s.EnsureBits 8 with ⟨b, t⟩
    rw [he] at hpeek
    cases b
    · simp at hpeek
      exact Or.inl hpeek.1.symm
    · simp at hpeek
      right
      have h255 : (255 : Int) = Int.ofNat 255 := rfl
      obtain ⟨hge, hle⟩ := int_land_nat_bounds t.current 255
      constructor
      · rw [← hpeek.1, h255]; exact hge
      · rw [← hpeek.1, h255]
        omega

/-- Witness for claim C9: a fresh stream over the single byte `0xAB`,
read and peeked with 8 bits. -/
theorem claim_C9_success_ranges_witness :
    (0 ≤ (171 : Int) ∧ (171 : Int) < ((2 ^ (8 : Int).toNat : Nat) : Int)) ∧
      ((171 : Int) = -1 ∨ (0 ≤ (171 : Int) ∧ (171 : Int) < 256)) :=
  ⟨(claim_C9_success_ranges.1 (CreateBitStream [byteOf 171]) 8 171
      { data := [byteOf 171], dataPosition := 1, current := 0, bitCount := 0 }
      (by decide) (by decide) (by decide)).2 (by decide),
   claim_C9_success_ranges.2 (CreateBitStream [byteOf 171]) 171
      { data := [byteOf 171], dataPosition := 1, current := 171, bitCount := 8 }
      (by decide)⟩

/-- Claim C8: for every `v` in the unsigned 32-bit range, `PushUint32`
into a fresh writer followed by `ReadUInt32` from position 0 over
`GetBytes()` succeeds and returns `v`. -/
theorem claim_C8_uint32_roundtrip (v : Nat) (h : v < 2 ^ 32) :
    ((CreateStreamReader ((CreateStreamWriter.PushUint32 v).GetBytes)).ReadUInt32).1 =
      some v := by
  have hbytes : (CreateStreamWriter.PushUint32 v).GetBytes =
      [byteOf v, byteOf (v >>> 8), byteOf (v >>> 16), byteOf (v >>> 24)] := rfl
  rw [hbytes]
  have hrb : (CreateStreamReader [byteOf v, byteOf (v >>> 8), byteOf (v >>> 16),
      byteOf (v >>> 24)]).ReadBytes 4 =
      (some [byteOf v, byteOf (v >>> 8), byteOf (v >>> 16), byteOf (v >>> 24)],
       { data := [byteOf v, byteOf (v >>> 8), byteOf (v >>> 16), byteOf (v >>> 24)],
         position := 4 }) := by
    unfold streamReader.ReadBytes CreateStreamReader streamReader.Size
    norm_num
    decide
  unfold streamReader.ReadUInt32
  rw [hrb]
  show some ((byteOf v).val ||| ((byteOf (v >>> 8)).val <<< 8) |||
      ((byteOf (v >>> 16)).val <<< 16) ||| ((byteOf (v >>> 24)).val <<< 24)) = some v
  simp only [byteOf]
  have e1 : v % 256 ||| ((v >>> 8) % 256) <<< 8 = v % 256 + (v >>> 8) % 256 * 2 ^ 8 :=
    lor_shiftLeft_eq_add _ 8 (by omega)
  rw [e1]
  have h1 : v % 256 + (v >>> 8) % 256 * 2 ^ 8 < 2 ^ 16 := by
    have := Nat.mod_lt (v >>> 8) (show 0 < 256 by norm_num)
    omega
  rw [lor_shiftLeft_eq_add _ 16 h1]
  have h2 : v % 256 + (v >>> 8) % 256 * 2 ^ 8 + (v >>> 16) % 256 * 2 ^ 16 < 2 ^ 24 := by
    have := Nat.mod_lt (v >>> 16) (show 0 < 256 by norm_num)
    omega
  rw [lor_shiftLeft_eq_add _ 24 h2]
  simp only [Nat.shiftRight_eq_div_pow]
  norm_num
  omega

/-- Witness for claim C8 at `v = 0xDEADBEEF`. -/
theorem claim_C8_uint32_roundtrip_witness :
    ((CreateStreamReader
        ((CreateStreamWriter.PushUint32 3735928559).GetBytes)).ReadUInt32).1 =
      some 3735928559 :=
  claim_C8_uint32_roundtrip 3735928559 (by norm_num)

/-- A `PushBit` that does not complete a byte only records the bit and
advances the offset. -/
theorem pushBit_not_complete (w : streamWriter) (b : Bool) (h : w.bitOffset + 1 ≠ 8) :
    (w.PushBit b).data = w.data ∧ (w.PushBit b).bitOffset = w.bitOffset + 1 := by
  simp only [streamWriter.PushBit]
  rw [if_pos h]
  exact ⟨rfl, rfl⟩

/-- A `PushBit` at offset 7 completes the byte: it is appended to the
buffer and both scratch fields reset. -/
theorem pushBit_complete (w : streamWriter) (b : Bool) (h : w.bitOffset = 7) :
    ∃ c, w.PushBit b = { data := w.data ++ [c], bitOffset := 0, bitCache := byte0 } := by
  refine ⟨if b then byteOf (w.bitCache.val ||| ((1 <<< w.bitOffset) % 256))
    else w.bitCache, ?_⟩
  simp only [streamWriter.PushBit]
  rw [if_neg (show ¬ w.bitOffset + 1 ≠ 8 by omega)]

/-- `PushBit` keeps the bit offset below 8. -/
theorem pushBit_offset_lt (w : streamWriter) (b : Bool) (h : w.bitOffset < 8) :
    (w.PushBit b).bitOffset < 8 := by
  by_cases h8 : w.bitOffset + 1 ≠ 8
  · rw [(pushBit_not_complete w b h8).2]
    omega
  · obtain ⟨c, hc⟩ := pushBit_complete w b (by omega)
    rw [hc]
    norm_num

/-- The shared push-bits loop keeps the bit offset below 8. -/
theorem pushBitsVal_offset_lt (n : Nat) : ∀ (w : streamWriter) (val : Nat),
    w.bitOffset < 8 → (w.pushBitsVal val n).bitOffset < 8 := by
  induction n with
  | zero => intro w val h; exact h
  | succ n ih =>
      intro w val h
      exact ih (w.PushBit (val % 2 == 1)) (val / 2) (pushBit_offset_lt w _ h)

/-- While a partial byte is pending, pushing too few bits to complete it
leaves the buffer unchanged, and pushing exactly the bits that complete
it appends exactly one byte. -/
theorem pushBitList_completion (bs : List Bool) : ∀ w : streamWriter,
    0 < w.bitOffset → w.bitOffset < 8 →
    (w.bitOffset + bs.length < 8 → (w.pushBitList bs).data = w.data) ∧
    (w.bitOffset + bs.length = 8 → ∃ c, (w.pushBitList bs).data = w.data ++ [c]) := by
  induction bs with
  | nil =>
      intro w h0 h8
      exact ⟨fun _ => rfl, fun h => absurd h (by simp; omega)⟩
  | cons b t ih =>
      intro w h0 h8
      have hstep : w.pushBitList (b :: t) = (w.PushBit b).pushBitList t := rfl
      by_cases h7 : w.bitOffset = 7
      · constructor
        · intro h
          simp only [List.length_cons] at h
          omega
        · intro h
          simp only [List.length_cons] at h
          have ht : t = [] := List.eq_nil_of_length_eq_zero (by omega)
          subst ht
          obtain ⟨c, hc⟩ := pushBit_complete w b h7
          refine ⟨c, ?_⟩
          rw [hstep, hc]
          rfl
      · have hne : w.bitOffset + 1 ≠ 8 := by omega
        obtain ⟨hdata, hoff⟩ := pushBit_not_complete w b hne
        obtain ⟨ih1, ih2⟩ := ih (w.PushBit b) (by omega) (by omega)
        constructor
        · intro h
          simp only [List.length_cons] at h
          rw [hstep, ih1 (by omega), hdata]
        · intro h
          simp only [List.length_cons] at h
          obtain ⟨c, hc⟩ := ih2 (by omega)
          refine ⟨c, ?_⟩
          rw [hstep, hc, hdata]

/-- Claim C5: the writer's bit machinery maintains its invariants — the
bit offset stays in `[0, 8)` under every operation (it is a `Nat`, so
non-negativity is by construction); completing 8 accumulated bits via
`PushBit` appends the cache byte and resets both scratch fields;
`GetBytes` exposes only the completed-byte buffer, never the pending
cache; byte-level pushes append to the buffer without flushing or
aligning the scratch state; and a pending partial byte reaches the
buffer only once further bit pushes complete it. -/
theorem claim_C5_writer_invariant :
    (∀ (w : streamWriter) (b : Bool), w.bitOffset < 8 → (w.PushBit b).bitOffset < 8) ∧
    (∀ (w : streamWriter) (b : Bool), w.bitOffset = 7 →
        ∃ c, w.PushBit b = { data := w.data ++ [c], bitOffset := 0, bitCache := byte0 }) ∧
    (∀ (w : streamWriter) (val n : Nat), w.bitOffset < 8 →
        (w.pushBitsVal val n).bitOffset < 8) ∧
    (∀ (w : streamWriter) (bs : List GoByte),
        (w.PushBytes bs).bitOffset = w.bitOffset ∧
        (w.PushBytes bs).bitCache = w.bitCache ∧
        (w.PushBytes bs).GetBytes = w.GetBytes ++ bs) ∧
    (∀ (w : streamWriter) (val : Nat),
        (w.PushUint16 val).bitOffset = w.bitOffset ∧
        (w.PushUint16 val).bitCache = w.bitCache) ∧
    (∀ (w : streamWriter) (val : Nat),
        (w.PushUint32 val).bitOffset = w.bitOffset ∧
        (w.PushUint32 val).bitCache = w.bitCache) ∧
    (∀ (w : streamWriter) (val : Nat),
        (w.PushUint64 val).bitOffset = w.bitOffset ∧
        (w.PushUint64 val).bitCache = w.bitCache) ∧
    (∀ w : streamWriter, w.GetBytes = w.data) ∧
    (∀ (w : streamWriter) (bs : List Bool), 0 < w.bitOffset → w.bitOffset < 8 →
        (w.bitOffset + bs.length < 8 → (w.pushBitList bs).GetBytes = w.GetBytes) ∧
        (w.bitOffset + bs.length = 8 →
          ∃ c, (w.pushBitList bs).GetBytes = w.GetBytes ++ [c])) := by
  refine ⟨pushBit_offset_lt, pushBit_complete, ?_, ?_, ?_, ?_, ?_, ?_, ?_⟩
  · intro w val n h
    exact pushBitsVal_offset_lt n w val h
  · intro w bs
    exact ⟨rfl, rfl, rfl⟩
  · intro w val
    exact ⟨rfl, rfl⟩
  · intro w val
    exact ⟨rfl, rfl⟩
  · intro w val
    exact ⟨rfl, rfl⟩
  · intro w
    rfl
  · intro w bs h0 h8
    exact pushBitList_completion bs w h0 h8

/-- Witness for claim C5 at concrete writers with pending bit offsets 3
and 7. -/
theorem claim_C5_writer_invariant_witness :
    ((streamWriter.PushBit
        { data := [byteOf 1], bitOffset := 3, bitCache := byteOf 5 } true).bitOffset < 8) ∧
    (∃ c, streamWriter.PushBit
        { data := [], bitOffset := 7, bitCache := byteOf 64 } false =
        { data := ([] : List GoByte) ++ [c], bitOffset := 0, bitCache := byte0 }) ∧
    ((streamWriter.pushBitsVal
        { data := [byteOf 1], bitOffset := 3, bitCache := byteOf 5 } 5 4).bitOffset < 8) ∧
    ((streamWriter.pushBitList
        { data := [byteOf 1], bitOffset := 3, bitCache := byteOf 5 } [true]).GetBytes =
      streamWriter.GetBytes { data := [byteOf 1], bitOffset := 3, bitCache := byteOf 5 }) ∧
    (∃ c, (streamWriter.pushBitList
        { data := [byteOf 1], bitOffset := 3, bitCache := byteOf 5 }
        [true, false, true, true, false]).GetBytes =
      streamWriter.GetBytes
        { data := [byteOf 1], bitOffset := 3, bitCache := byteOf 5 } ++ [c]) :=
  ⟨claim_C5_writer_invariant.1 _ true (by decide),
   claim_C5_writer_invariant.2.1 _ false (by decide),
   claim_C5_writer_invariant.2.2.1 _ 5 4 (by decide),
   (claim_C5_writer_invariant.2.2.2.2.2.2.2.2 _ [true] (by decide) (by decide)).1
     (by decide),
   (claim_C5_writer_invariant.2.2.2.2.2.2.2.2 _ [true, false, true, true, false]
     (by decide) (by decide)).2 (by decide)⟩
